import Mathlib

/-!
Verification of the command/response core of the `caligo` bot framework
(`caligo/command.py`), against its design specification.

Python strings are embedded as `List Char`; Python slices `s[:n]` / `s[n:]`
become `List.take` / `List.drop` (for the non-negative indices the source
uses).  Fallible constructs are embedded with `Option`.
-/

set_option autoImplicit false

namespace Caligo

/-- Character sequences standing for Python `str`. -/
abbrev Text := List Char

/-- Modelled from the spec: `util.tg.MESSAGE_CHAR_LIMIT`, the transport
character ceiling.  The module `caligo/util/tg.py` that defines it is not in
the sources; the spec fixes it as the constant 4096 ("transport character
ceiling, currently 4096"). -/
def MESSAGE_CHAR_LIMIT : Nat := 4096

/-- The three-character ellipsis marker `"..."` used by `respond_split`. -/
def ellipsis : Text := ['.', '.', '.']

/-- One page computed by the pagination loop: the rendered content, the
`ellipsis_chars` counter, and which ellipsis markers were concatenated on
(the spec's `ResponsePage` prefix/suffix flags, read off the branch taken
at `command.py` lines 209-232). -/
structure Page where
  content : Text
  ellipsisChars : Nat
  pre : Bool
  suf : Bool
deriving DecidableEq

/-- The page/ellipsis computation of one iteration of the loop body of
`Context.respond_split` (`command.py` lines 209-232), verbatim: the length
test is against the literal `4096` as in line 209, the slices use
`MESSAGE_CHAR_LIMIT`. -/
def splitPage (text : Text) (pages_sent max_pages : Nat) : Page :=
  if text.length ≤ 4096 then
    if pages_sent = 0 then
      ⟨text.take MESSAGE_CHAR_LIMIT, 0, false, false⟩
    else
      ⟨ellipsis ++ text.take (MESSAGE_CHAR_LIMIT - 3), 3, true, false⟩
  else if pages_sent = max_pages - 1 then
    if pages_sent = 0 then
      ⟨text, 0, false, false⟩
    else
      ⟨ellipsis ++ text, 3, true, false⟩
  else
    if pages_sent = 0 then
      ⟨text.take (MESSAGE_CHAR_LIMIT - 3) ++ ellipsis, 3, false, true⟩
    else
      ⟨ellipsis ++ text.take (MESSAGE_CHAR_LIMIT - 6) ++ ellipsis, 6, true, true⟩

/-- The pagination loop of `Context.respond_split` (`command.py` lines
203-236), abstracted from the sends: `while text and pages_sent < max_pages`,
compute the page, then advance the text by `MESSAGE_CHAR_LIMIT -
ellipsis_chars` and increment `pages_sent`.  Returns the pages in order and
the text remaining when the loop exits. -/
def splitLoop (text : Text) (pages_sent max_pages : Nat) : List Page × Text :=
  if h : text ≠ [] ∧ pages_sent < max_pages then
    let pg := splitPage text pages_sent max_pages
    let rest := splitLoop (text.drop (MESSAGE_CHAR_LIMIT - pg.ellipsisChars))
      (pages_sent + 1) max_pages
    (pg :: rest.1, rest.2)
  else
    ([], text)
termination_by max_pages - pages_sent
decreasing_by omega

/-- The spec's six-row ellipsis decision table (§4.3), written from the
spec's own words: rows keyed on `len(text) ≤ LIMIT` versus `> LIMIT`, on the
final allowed page `pagesSent == maxPages-1`, and on `pagesSent == 0` versus
`> 0`, returning the page content and the ellipsis characters consumed. -/
def specRow (text : Text) (pagesSent maxPages : Nat) : Text × Nat :=
  if text.length ≤ MESSAGE_CHAR_LIMIT ∧ pagesSent = 0 then
    (text.take MESSAGE_CHAR_LIMIT, 0)
  else if text.length ≤ MESSAGE_CHAR_LIMIT ∧ pagesSent > 0 then
    (ellipsis ++ text.take (MESSAGE_CHAR_LIMIT - 3), 3)
  else if text.length > MESSAGE_CHAR_LIMIT ∧ pagesSent = maxPages - 1 ∧ pagesSent = 0 then
    (text, 0)
  else if text.length > MESSAGE_CHAR_LIMIT ∧ pagesSent = maxPages - 1 ∧ pagesSent > 0 then
    (ellipsis ++ text, 3)
  else if pagesSent = 0 then
    (text.take (MESSAGE_CHAR_LIMIT - 3) ++ ellipsis, 3)
  else
    (ellipsis ++ text.take (MESSAGE_CHAR_LIMIT - 6) ++ ellipsis, 6)

/-- The spec's pagination loop (§4.3 step 2), written from the spec's own
words: loop while the text is non-empty and `pagesSent < maxPages`; each
iteration takes its page from the decision table, consumes
`LIMIT - ellipsisCharsConsumed` characters from the front, and increments
`pagesSent`. -/
def specPaginate (text : Text) (pagesSent maxPages : Nat) : List (Text × Nat) × Text :=
  if h : text ≠ [] ∧ pagesSent < maxPages then
    let row := specRow text pagesSent maxPages
    let rest := specPaginate (text.drop (MESSAGE_CHAR_LIMIT - row.2)) (pagesSent + 1) maxPages
    (row :: rest.1, rest.2)
  else
    ([], text)
termination_by maxPages - pagesSent
decreasing_by omega

theorem splitPage_eq_specRow (text : Text) (ps mp : Nat) :
    ((splitPage text ps mp).content, (splitPage text ps mp).ellipsisChars) =
      specRow text ps mp := by
  unfold splitPage specRow MESSAGE_CHAR_LIMIT
  split_ifs <;> simp_all
  omega

theorem splitLoop_eq_specPaginate_aux (n : Nat) :
    ∀ (text : Text) (ps mp : Nat), mp - ps ≤ n →
      ((splitLoop text ps mp).1.map (fun p => (p.content, p.ellipsisChars)),
        (splitLoop text ps mp).2) = specPaginate text ps mp := by
  induction n with
  | zero =>
    intro text ps mp hle
    have h : ¬(text ≠ [] ∧ ps < mp) := fun hc => absurd hc.2 (by omega)
    rw [splitLoop, specPaginate, dif_neg h, dif_neg h]
    simp
  | succ n ih =>
    intro text ps mp hle
    by_cases h : text ≠ [] ∧ ps < mp
    · rw [splitLoop, specPaginate, dif_pos h, dif_pos h]
      have hpe := splitPage_eq_specRow text ps mp
      have h2 : (splitPage text ps mp).ellipsisChars = (specRow text ps mp).2 :=
        congrArg Prod.snd hpe
      have hrec := ih (text.drop (MESSAGE_CHAR_LIMIT - (splitPage text ps mp).ellipsisChars))
        (ps + 1) mp (by omega)
      simp only [List.map_cons, Prod.mk.injEq, List.cons.injEq]
      rw [← h2]
      exact ⟨⟨hpe, congrArg Prod.fst hrec⟩, congrArg Prod.snd hrec⟩
    · rw [splitLoop, specPaginate, dif_neg h, dif_neg h]
      simp

/-- Claim C1: the pagination loop of `respond_split` loops while the
remaining text is non-empty and `pages_sent < max_pages`, computes each
page's content and consumed-ellipsis count exactly per the spec's six-row
decision table, and advances by dropping `LIMIT - ellipsisCharsConsumed`
characters and incrementing `pages_sent`: the source loop `splitLoop` and
the loop `specPaginate` written from the spec's words produce identical
page/ellipsis sequences and identical final remainders, for every input
text, every starting counter and every `max_pages`. -/
theorem respond_split_follows_decision_table (text : Text) (ps mp : Nat) :
    ((splitLoop text ps mp).1.map (fun p => (p.content, p.ellipsisChars)),
      (splitLoop text ps mp).2) = specPaginate text ps mp :=
  splitLoop_eq_specPaginate_aux (mp - ps) text ps mp le_rfl

theorem splitLoop_pages_ne_nil {t : Text} {ps mp : Nat}
    (h : (splitLoop t ps mp).1 ≠ []) : t ≠ [] ∧ ps < mp := by
  by_contra hc
  rw [splitLoop, dif_neg hc] at h
  exact h rfl

theorem splitPage_length_le {text : Text} {ps mp : Nat}
    (h : text.length ≤ 4096 ∨ ps ≠ mp - 1) :
    (splitPage text ps mp).content.length ≤ 4096 := by
  rcases h with h | h
  · unfold splitPage MESSAGE_CHAR_LIMIT
    split_ifs <;> simp_all [ellipsis, List.length_take]
  · unfold splitPage MESSAGE_CHAR_LIMIT
    split_ifs <;> simp_all [ellipsis, List.length_take]

theorem splitLoop_dropLast_within_limit_aux (n : Nat) :
    ∀ (text : Text) (ps mp : Nat), mp - ps ≤ n →
      ((splitLoop text ps mp).1.dropLast.all fun p => p.content.length ≤ 4096) = true := by
  induction n with
  | zero =>
    intro text ps mp hle
    have h : ¬(text ≠ [] ∧ ps < mp) := fun hc => absurd hc.2 (by omega)
    rw [splitLoop, dif_neg h]
    rfl
  | succ n ih =>
    intro text ps mp hle
    by_cases h : text ≠ [] ∧ ps < mp
    · rw [splitLoop, dif_pos h]
      have ihr := ih (text.drop (MESSAGE_CHAR_LIMIT - (splitPage text ps mp).ellipsisChars))
        (ps + 1) mp (by omega)
      rcases hrest : (splitLoop
          (text.drop (MESSAGE_CHAR_LIMIT - (splitPage text ps mp).ellipsisChars))
          (ps + 1) mp).1 with _ | ⟨a, l⟩
      · simp only [hrest, List.dropLast_single, List.all_nil]
      · have hlt : ps + 1 < mp :=
          (splitLoop_pages_ne_nil (by rw [hrest]; exact List.cons_ne_nil a l)).2
        have hbound := @splitPage_length_le text ps mp (Or.inr (by omega))
        rw [hrest] at ihr
        simp only [hrest, List.dropLast_cons₂, List.all_cons, Bool.and_eq_true,
          decide_eq_true_eq]
        exact ⟨hbound, ihr⟩
    · rw [splitLoop, dif_neg h]
      rfl

/-- Claim C3 (counterexample): on input text of length 4097 with
`max_pages = 1`, the single computed page is the entire remaining text
(final-allowed-page branch, `command.py` lines 217-221), whose rendered
length is 4097 > 4096, so not every computed page has length at most the
transport ceiling. -/
theorem respond_split_page_over_limit :
    ¬ ∀ p ∈ (splitLoop (List.replicate 4097 'a') 0 1).1,
        p.content.length ≤ MESSAGE_CHAR_LIMIT := by
  intro hall
  have hne : List.replicate 4097 'a' ≠ [] := by
    intro hc; rw [List.replicate_eq_nil_iff] at hc; omega
  have hpage : splitPage (List.replicate 4097 'a') 0 1 =
      ⟨List.replicate 4097 'a', 0, false, false⟩ := by
    unfold splitPage
    rw [if_neg (by rw [List.length_replicate]; omega), if_pos rfl, if_pos rfl]
  have hmem : (⟨List.replicate 4097 'a', 0, false, false⟩ : Page) ∈
      (splitLoop (List.replicate 4097 'a') 0 1).1 := by
    rw [splitLoop, dif_pos ⟨hne, Nat.zero_lt_one⟩]
    rw [hpage]
    exact List.mem_cons_self _ _
  have hlen := hall _ hmem
  rw [List.length_replicate, MESSAGE_CHAR_LIMIT] at hlen
  omega

/-- Claim C3 (amended): every page computed by the pagination loop of
`respond_split` except possibly the last one sent has rendered length (added
ellipsis characters included) at most 4096; only the final allowed page may
exceed the ceiling, when it is reached with more than 4096 characters
remaining (the source then hands the whole remainder to the transport's
standard truncation path). -/
theorem respond_split_nonfinal_pages_within_limit (text : Text) (ps mp : Nat) :
    ((splitLoop text ps mp).1.dropLast.all fun p => p.content.length ≤ 4096) = true :=
  splitLoop_dropLast_within_limit_aux (mp - ps) text ps mp le_rfl

/-- The "real" content of a rendered page: the page text with the ellipsis
markers the loop added stripped off again (three characters at the front
when `pre`, three at the back when `suf`). -/
def realContent (p : Page) : Text :=
  let t := if p.pre then p.content.drop 3 else p.content
  if p.suf then t.take (t.length - 3) else t

theorem drop_three_ellipsis (t : Text) : (ellipsis ++ t).drop 3 = t :=
  List.drop_left ellipsis t

theorem realContent_splitPage {text : Text} {ps mp : Nat}
    (h : text.length ≤ 4096 ∨ ps ≠ mp - 1) :
    realContent (splitPage text ps mp) =
      text.take (MESSAGE_CHAR_LIMIT - (splitPage text ps mp).ellipsisChars) := by
  unfold splitPage MESSAGE_CHAR_LIMIT
  split_ifs with h1 h2 h3 h4 h5
  · simp [realContent]
  · simp [realContent, drop_three_ellipsis]
  · rcases h with h | h
    · omega
    · exact absurd h3 h
  · rcases h with h | h
    · omega
    · exact absurd h3 h
  · simp only [realContent]
    have hl : (text.take 4093).length = 4093 := by
      rw [List.length_take]; omega
    simp only [Bool.false_eq_true, if_false, if_true]
    rw [List.length_append, hl]
    have he : (ellipsis : Text).length = 3 := rfl
    rw [he]
    norm_num
    exact List.take_left' hl
  · simp only [realContent]
    simp only [if_true]
    rw [List.append_assoc, drop_three_ellipsis]
    have hl : (text.take 4090).length = 4090 := by
      rw [List.length_take]; omega
    rw [List.length_append, hl]
    have he : (ellipsis : Text).length = 3 := rfl
    rw [he]
    norm_num
    exact List.take_left' hl

theorem splitLoop_roundTrip_aux (n : Nat) :
    ∀ (text : Text) (ps mp : Nat), mp - ps ≤ n →
      (splitLoop text ps mp).2 = [] →
      ((splitLoop text ps mp).1.map realContent).flatten = text := by
  induction n with
  | zero =>
    intro text ps mp hle hrem
    have h : ¬(text ≠ [] ∧ ps < mp) := fun hc => absurd hc.2 (by omega)
    rw [splitLoop, dif_neg h] at hrem ⊢
    simp only [List.map_nil, List.flatten_nil]
    exact hrem.symm
  | succ n ih =>
    intro text ps mp hle hrem
    by_cases h : text ≠ [] ∧ ps < mp
    · rw [splitLoop, dif_pos h] at hrem ⊢
      dsimp only at hrem
      by_cases hfin : 4096 < text.length ∧ ps = mp - 1
      · exfalso
        have hnext : ¬(text.drop (MESSAGE_CHAR_LIMIT - (splitPage text ps mp).ellipsisChars) ≠ []
            ∧ ps + 1 < mp) := fun hc => absurd hc.2 (by omega)
        rw [splitLoop, dif_neg hnext] at hrem
        rw [List.drop_eq_nil_iff] at hrem
        have : MESSAGE_CHAR_LIMIT - (splitPage text ps mp).ellipsisChars ≤ 4096 := by
          unfold MESSAGE_CHAR_LIMIT; omega
        omega
      · have h' : text.length ≤ 4096 ∨ ps ≠ mp - 1 := by
          by_cases hl : text.length ≤ 4096
          · exact Or.inl hl
          · exact Or.inr fun he => hfin ⟨by omega, he⟩
        have ihr := ih (text.drop (MESSAGE_CHAR_LIMIT - (splitPage text ps mp).ellipsisChars))
          (ps + 1) mp (by omega) hrem
        simp only [List.map_cons, List.flatten_cons]
        rw [realContent_splitPage h', ihr, List.take_append_drop]
    · rw [splitLoop, dif_neg h] at hrem ⊢
      simp only [List.map_nil, List.flatten_nil]
      exact hrem.symm

/-- A transport message handle, identified by the order in which the
modelled transport created it. -/
structure Msg where
  id : Nat
deriving DecidableEq

/-- The per-context response-deliverer state of `Context` (`command.py`
lines 95-135): the triggering message `msg` (`selfMsg` here) and the
chaining state `response` / `response_mode`, both `None` after
construction. -/
structure Ctx where
  selfMsg : Msg
  response : Option Msg
  response_mode : Option String
deriving DecidableEq

/-- One call handed to the transport collaborator `self.bot.respond`
(`command.py` lines 162-172): the target message (`msg or self.msg`), the
text, the mode, the redact flag, and the previous-response handle passed as
the `response=` edit target (`none` means a new message is created). -/
structure SendCall where
  target : Msg
  text : Text
  mode : Option String
  redact : Bool
  editTarget : Option Msg
deriving DecidableEq

/-- A deferred-deletion task created at `command.py` lines 177-181.  The
`delete()` closure captures `self` (the whole context), not a message
handle, so the task record carries only the delay; what it deletes is
resolved against the context state when it fires (`fireDelete`). -/
structure DelTask where
  delay : Int
deriving DecidableEq

/-- The body of the deferred `delete()` closure after its sleep
(`command.py` line 179): `await self.response.delete()` deletes whatever
`self.response` is at firing time. -/
def fireDelete (ctx : Ctx) : Option Msg := ctx.response

/-- Modelled from the spec: the transport collaborator `bot.respond`
(defined in the missing `core/telegram_bot.py` module); per §6 it sends or
edits a message and returns the sent message's handle.  Modelled as
returning a fresh handle and advancing the fresh-handle counter; the
arguments given to it are recorded separately as a `SendCall`. -/
def transportSend (nextId : Nat) : Msg × Nat := (⟨nextId⟩, nextId + 1)

/-- Result of one `Context.respond` call: the transport call made, the
returned handle, the updated context, the advanced fresh-handle counter,
and the deferred-deletion tasks scheduled by the call. -/
structure RespondResult where
  call : SendCall
  sent : Msg
  ctx : Ctx
  nextId : Nat
  tasks : List DelTask
deriving DecidableEq

/-- `Context.respond` (`command.py` lines 150-183): call the transport with
target `msg or self.msg` and with the previous response as edit target
exactly when `reuse_response and mode == self.response_mode`; record the
returned handle in `self.response` and the mode in `self.response_mode`;
when `delete_after != 0`, create one deferred-deletion task. -/
def Context.respond (ctx : Ctx) (nextId : Nat) (text : Text)
    (mode : Option String) (redact : Bool) (msg : Option Msg)
    (reuse_response : Bool) (delete_after : Int) : RespondResult :=
  let call : SendCall :=
    { target := msg.getD ctx.selfMsg
      text := text
      mode := mode
      redact := redact
      editTarget :=
        if reuse_response ∧ mode = ctx.response_mode then ctx.response else none }
  let sent := (transportSend nextId).1
  { call := call
    sent := sent
    ctx := { ctx with response := some sent, response_mode := mode }
    nextId := (transportSend nextId).2
    tasks := if delete_after ≠ 0 then [⟨delete_after⟩] else [] }

/-- `Context.respond_multi` (`command.py` lines 240-262): when a previous
response exists, default `mode` to `"reply"` and default the target `msg`
to the previous response, then delegate to `respond`.  (The source's
`if reuse_response is None` branch is unreachable for the `bool`-typed
`reuse_response` embedded here.)  `redact` and `delete_after` model the
`**kwargs` forwarded to `respond`: an absent key is `respond`'s own default
(`true` and `0`). -/
def Context.respond_multi (ctx : Ctx) (nextId : Nat) (text : Text)
    (mode : Option String) (msg : Option Msg) (reuse_response : Bool)
    (redact : Bool) (delete_after : Int) : RespondResult :=
  if ctx.response.isSome then
    let mode := if mode.isNone then some "reply" else mode
    let msg := if msg.isNone then ctx.response else msg
    Context.respond ctx nextId text mode redact msg reuse_response delete_after
  else
    Context.respond ctx nextId text mode redact msg reuse_response delete_after

/-- Outcome of `Context.respond_split`: the transport calls made for the
pages in order, the handle of the last page sent (`last_msg`), and the
final context state and fresh-handle counter. -/
structure SplitResult where
  calls : List SendCall
  last : Option Msg
  ctx : Ctx
  nextId : Nat
deriving DecidableEq

/-- The send loop of `Context.respond_split` (`command.py` lines 203-236):
each computed page is sent with `self.respond_multi(page, **kwargs)`; with
no `kwargs` the inner call carries `respond_multi`'s own defaults and
`respond`'s defaults `redact = True`, `delete_after = 0`. -/
def splitSendLoop (ctx : Ctx) (nextId : Nat) (text : Text)
    (pages_sent max_pages : Nat) : SplitResult :=
  if h : text ≠ [] ∧ pages_sent < max_pages then
    let pg := splitPage text pages_sent max_pages
    let r := Context.respond_multi ctx nextId pg.content none none false true 0
    let rest := splitSendLoop r.ctx r.nextId
      (text.drop (MESSAGE_CHAR_LIMIT - pg.ellipsisChars)) (pages_sent + 1) max_pages
    { calls := r.call :: rest.calls
      last := rest.last.orElse fun _ => some r.sent
      ctx := rest.ctx
      nextId := rest.nextId }
  else
    { calls := [], last := none, ctx := ctx, nextId := nextId }
termination_by max_pages - pages_sent
decreasing_by omega

/-- `Context.respond_split` (`command.py` lines 185-238): resolve `redact`
and `max_pages` from the bot config when unset, redact the whole text
before splitting when redaction is on, then run the pagination send loop
and return its outcome (the source returns `last_msg`).  The redaction
function `bot.redact_message` lives in the missing core module and is the
parameter `redactFn`; the config entries `redact_responses` and
`overflow_page_limit` are the parameters `cfgRedact` and `cfgPageLimit`. -/
def Context.respond_split (ctx : Ctx) (nextId : Nat) (text : Text)
    (max_pages : Option Nat) (redact : Option Bool) (cfgRedact : Bool)
    (cfgPageLimit : Nat) (redactFn : Text → Text) : SplitResult :=
  let r := redact.getD cfgRedact
  let mp := max_pages.getD cfgPageLimit
  let text := if r then redactFn text else text
  splitSendLoop ctx nextId text 0 mp

theorem respond_multi_call_text_redact (ctx : Ctx) (nid : Nat) (t : Text)
    (m : Option String) (ms : Option Msg) (ru rd : Bool) (d : Int) :
    ((Context.respond_multi ctx nid t m ms ru rd d).call.text = t) ∧
    ((Context.respond_multi ctx nid t m ms ru rd d).call.redact = rd) := by
  unfold Context.respond_multi
  split_ifs <;> exact ⟨rfl, rfl⟩

theorem respond_multi_sent (ctx : Ctx) (nid : Nat) (t : Text)
    (m : Option String) (ms : Option Msg) (ru rd : Bool) (d : Int) :
    (Context.respond_multi ctx nid t m ms ru rd d).sent = ⟨nid⟩ := by
  unfold Context.respond_multi
  split_ifs <;> rfl

theorem respond_multi_state (ctx : Ctx) (nid : Nat) (t : Text)
    (m : Option String) (ms : Option Msg) (ru rd : Bool) (d : Int) :
    (Context.respond_multi ctx nid t m ms ru rd d).ctx.response =
      some (Context.respond_multi ctx nid t m ms ru rd d).sent := by
  unfold Context.respond_multi
  split_ifs <;> rfl

/-- Claim C7: `respond` passes the previous response handle to the
transport as edit target exactly when `reuse_response` holds and `mode`
equals the recorded `response_mode` (so an edit target is actually present
iff additionally a previous response exists); otherwise a new message is
created, targeting the override message if given, else the triggering
message; and after the call, `response` and `response_mode` are updated
unconditionally to the returned handle and the mode argument. -/
theorem respond_edit_target_and_state (ctx : Ctx) (nid : Nat) (t : Text)
    (mode : Option String) (rd : Bool) (msg : Option Msg) (ru : Bool) (d : Int) :
    ((Context.respond ctx nid t mode rd msg ru d).call.editTarget =
      if ru ∧ mode = ctx.response_mode then ctx.response else none) ∧
    ((Context.respond ctx nid t mode rd msg ru d).call.editTarget.isSome = true ↔
      ru = true ∧ mode = ctx.response_mode ∧ ctx.response.isSome = true) ∧
    ((Context.respond ctx nid t mode rd msg ru d).call.target = msg.getD ctx.selfMsg) ∧
    ((Context.respond ctx nid t mode rd msg ru d).ctx.response =
      some (Context.respond ctx nid t mode rd msg ru d).sent) ∧
    ((Context.respond ctx nid t mode rd msg ru d).ctx.response_mode = mode) := by
  refine ⟨rfl, ?_, rfl, rfl, rfl⟩
  show (if ru ∧ mode = ctx.response_mode then ctx.response else none).isSome = true ↔ _
  split_ifs with h
  · simp_all
  · simp_all [not_and_or]

theorem respond_multi_reply_to (c : Ctx) (nid2 : Nat) (t2 : Text)
    (ru2 rd2 : Bool) (d2 : Int) (p : Msg) (hc : c.response = some p) :
    ((Context.respond_multi c nid2 t2 none none ru2 rd2 d2).call.mode = some "reply") ∧
    ((Context.respond_multi c nid2 t2 none none ru2 rd2 d2).call.target = p) := by
  unfold Context.respond_multi
  rw [hc]
  simp [Context.respond]

/-- Claim C6: with a previous response present, `respond_multi` delegates
to `respond` with mode defaulted to `"reply"` and target defaulted to the
previous response, caller-supplied explicit values overriding; with no
previous response the arguments pass through unchanged; consequently a
second chained `respond_multi` call with no explicit mode or target uses
mode `"reply"` and targets the message sent by the first call. -/
theorem respond_multi_defaults_and_chaining (ctx : Ctx) (nid nid2 : Nat)
    (t t2 : Text) (mode : Option String) (msg : Option Msg)
    (ru ru2 rd rd2 : Bool) (d d2 : Int) :
    (Context.respond_multi ctx nid t mode msg ru rd d =
      Context.respond ctx nid t
        (if ctx.response.isSome ∧ mode.isNone then some "reply" else mode) rd
        (if ctx.response.isSome ∧ msg.isNone then ctx.response else msg) ru d) ∧
    ((Context.respond_multi (Context.respond_multi ctx nid t none none ru rd d).ctx nid2 t2
        none none ru2 rd2 d2).call.mode = some "reply") ∧
    ((Context.respond_multi (Context.respond_multi ctx nid t none none ru rd d).ctx nid2 t2
        none none ru2 rd2 d2).call.target =
      (Context.respond_multi ctx nid t none none ru rd d).sent) := by
  refine ⟨?_, ?_, ?_⟩
  · unfold Context.respond_multi
    rcases hresp : ctx.response with _ | p <;> rcases mode with _ | m <;>
      rcases msg with _ | mm <;> simp [hresp]
  · exact (respond_multi_reply_to ((Context.respond_multi ctx nid t none none ru rd d).ctx)
      nid2 t2 ru2 rd2 d2 _ (respond_multi_state ctx nid t none none ru rd d)).1
  · exact (respond_multi_reply_to ((Context.respond_multi ctx nid t none none ru rd d).ctx)
      nid2 t2 ru2 rd2 d2 _ (respond_multi_state ctx nid t none none ru rd d)).2

/-- Claim C4 (counterexample): the deferred `delete()` closure captures the
context (`self`), not the handle returned by the `respond` call that
scheduled it: if a second `respond` runs before the task fires, firing
deletes the second call's message, not "the just-sent message" of the
scheduling call (handle 1); so the task neither holds its own reference to
that response handle only, nor deletes the message returned by that
`respond` call. -/
theorem deferred_delete_targets_current_response :
    fireDelete (Context.respond
        (Context.respond ⟨⟨0⟩, none, none⟩ 1 ['o', 'k'] none true none false 5).ctx
        (Context.respond ⟨⟨0⟩, none, none⟩ 1 ['o', 'k'] none true none false 5).nextId
        ['h', 'i'] none true none false 0).ctx = some ⟨2⟩ ∧
    (Context.respond ⟨⟨0⟩, none, none⟩ 1 ['o', 'k'] none true none false 5).sent = ⟨1⟩ ∧
    ¬ (fireDelete (Context.respond
        (Context.respond ⟨⟨0⟩, none, none⟩ 1 ['o', 'k'] none true none false 5).ctx
        (Context.respond ⟨⟨0⟩, none, none⟩ 1 ['o', 'k'] none true none false 5).nextId
        ['h', 'i'] none true none false 0).ctx =
      some (Context.respond ⟨⟨0⟩, none, none⟩ 1 ['o', 'k'] none true none false 5).sent) := by
  decide

/-- Claim C4 (amended): `respond` with nonzero `delete_after` returns the
sent handle and schedules exactly one deferred task with that delay; the
task, which holds the context, deletes on firing the context's current
response — equal to the just-sent message whenever no later `respond` has
run on the context in between. -/
theorem respond_schedules_deferred_delete (ctx : Ctx) (nid : Nat) (t : Text)
    (m : Option String) (rd : Bool) (ms : Option Msg) (ru : Bool) (d : Int)
    (hd : d ≠ 0) :
    (Context.respond ctx nid t m rd ms ru d).tasks = [⟨d⟩] ∧
    (Context.respond ctx nid t m rd ms ru d).sent = ⟨nid⟩ ∧
    fireDelete (Context.respond ctx nid t m rd ms ru d).ctx =
      some (Context.respond ctx nid t m rd ms ru d).sent := by
  refine ⟨?_, rfl, rfl⟩
  show (if d ≠ 0 then [(⟨d⟩ : DelTask)] else []) = [⟨d⟩]
  rw [if_pos hd]

theorem respond_schedules_deferred_delete_witness :
    ((5 : Int) ≠ 0) ∧
    ((Context.respond ⟨⟨0⟩, none, none⟩ 1 ['o', 'k'] none true none false 5).tasks =
        [⟨5⟩] ∧
      (Context.respond ⟨⟨0⟩, none, none⟩ 1 ['o', 'k'] none true none false 5).sent = ⟨1⟩ ∧
      fireDelete (Context.respond ⟨⟨0⟩, none, none⟩ 1 ['o', 'k'] none true none false 5).ctx =
        some (Context.respond ⟨⟨0⟩, none, none⟩ 1 ['o', 'k'] none true none false 5).sent) :=
  ⟨by decide,
    respond_schedules_deferred_delete ⟨⟨0⟩, none, none⟩ 1 ['o', 'k'] none true none false 5
      (by decide)⟩

theorem splitSendLoop_redact_aux (n : Nat) :
    ∀ (ctx : Ctx) (nid : Nat) (text : Text) (ps mp : Nat), mp - ps ≤ n →
      ((splitSendLoop ctx nid text ps mp).calls.all fun c => c.redact) = true := by
  induction n with
  | zero =>
    intro ctx nid text ps mp hle
    have h : ¬(text ≠ [] ∧ ps < mp) := fun hc => absurd hc.2 (by omega)
    rw [splitSendLoop, dif_neg h]
    rfl
  | succ n ih =>
    intro ctx nid text ps mp hle
    by_cases h : text ≠ [] ∧ ps < mp
    · rw [splitSendLoop, dif_pos h]
      dsimp only
      rw [List.all_cons]
      rw [(respond_multi_call_text_redact ctx nid
        (splitPage text ps mp).content none none false true 0).2]
      rw [ih _ _ _ _ _ (by omega)]
      rfl
    · rw [splitSendLoop, dif_neg h]
      rfl

/-- Claim C10: every per-page inner send made by `respond_split` carries
`respond`'s own default redact flag `True`, for every resolved split-level
redact policy (`redact` argument or config default): `respond_split`
consumes its `redact` keyword itself and never forwards it to
`respond_multi`, so resolving it to `False` does not change the redact flag
on the individual page sends. -/
theorem respond_split_inner_sends_redact_default (ctx : Ctx) (nid : Nat)
    (text : Text) (max_pages : Option Nat) (redact : Option Bool)
    (cfgR : Bool) (cfgL : Nat) (rf : Text → Text) :
    ((Context.respond_split ctx nid text max_pages redact cfgR cfgL rf).calls.all
      fun c => c.redact) = true := by
  unfold Context.respond_split
  exact splitSendLoop_redact_aux (max_pages.getD cfgL) ctx nid _ 0 _ (by omega)

theorem splitSendLoop_texts_aux (n : Nat) :
    ∀ (ctx : Ctx) (nid : Nat) (text : Text) (ps mp : Nat), mp - ps ≤ n →
      ((splitSendLoop ctx nid text ps mp).calls.map fun c => c.text) =
        ((splitLoop text ps mp).1.map fun p => p.content) := by
  induction n with
  | zero =>
    intro ctx nid text ps mp hle
    have h : ¬(text ≠ [] ∧ ps < mp) := fun hc => absurd hc.2 (by omega)
    rw [splitSendLoop, splitLoop, dif_neg h, dif_neg h]
    rfl
  | succ n ih =>
    intro ctx nid text ps mp hle
    by_cases h : text ≠ [] ∧ ps < mp
    · rw [splitSendLoop, splitLoop, dif_pos h, dif_pos h]
      dsimp only
      rw [List.map_cons, List.map_cons]
      rw [(respond_multi_call_text_redact ctx nid
        (splitPage text ps mp).content none none false true 0).1]
      rw [ih _ _ _ _ _ (by omega)]
    · rw [splitSendLoop, splitLoop, dif_neg h, dif_neg h]
      rfl

/-- Claim C2: with redaction disabled and whenever `max_pages` suffices for
the loop to consume the whole input (no truncation), the pages sent by
`respond_split` are exactly the loop's computed page contents, and
stripping each page's added ellipsis markers and concatenating the results
reconstructs the original input text exactly. -/
theorem respond_split_round_trip (ctx : Ctx) (nid : Nat) (text : Text) (mp : Nat)
    (cfgR : Bool) (cfgL : Nat) (rf : Text → Text)
    (hdone : (splitLoop text 0 mp).2 = []) :
    (((Context.respond_split ctx nid text (some mp) (some false) cfgR cfgL rf).calls.map
        fun c => c.text) = ((splitLoop text 0 mp).1.map fun p => p.content)) ∧
    (((splitLoop text 0 mp).1.map realContent).flatten = text) := by
  constructor
  · unfold Context.respond_split
    exact splitSendLoop_texts_aux mp ctx nid text 0 mp (by omega)
  · exact splitLoop_roundTrip_aux mp text 0 mp (by omega) hdone

theorem respond_split_round_trip_witness :
    ((splitLoop ['a'] 0 1).2 = []) ∧
    ((((Context.respond_split ⟨⟨0⟩, none, none⟩ 0 ['a'] (some 1) (some false) false 0
        (fun t => t)).calls.map fun c => c.text) =
      ((splitLoop ['a'] 0 1).1.map fun p => p.content)) ∧
    (((splitLoop ['a'] 0 1).1.map realContent).flatten = ['a'])) := by
  have hdone : (splitLoop ['a'] 0 1).2 = [] := by
    rw [splitLoop, dif_pos (⟨by decide, by decide⟩ : (['a'] : Text) ≠ [] ∧ 0 < 1)]
    dsimp only
    rw [splitLoop, dif_neg (by decide)]
    decide
  exact ⟨hdone,
    respond_split_round_trip ⟨⟨0⟩, none, none⟩ 0 ['a'] 1 false 0 (fun t => t) hdone⟩

/-- Claim C5 (counterexample): on empty input text, `respond_split` sends
no page at all (the loop body never runs) and returns no message handle, so
it is not the case that for every text of length at most the limit exactly
one page is sent. -/
theorem respond_split_empty_text_sends_nothing :
    ((Context.respond_split ⟨⟨0⟩, none, none⟩ 1 [] (some 1) (some false) false 0
        (fun t => t)).calls = []) ∧
    ((Context.respond_split ⟨⟨0⟩, none, none⟩ 1 [] (some 1) (some false) false 0
        (fun t => t)).last = none) ∧
    ¬ ((Context.respond_split ⟨⟨0⟩, none, none⟩ 1 [] (some 1) (some false) false 0
        (fun t => t)).calls.length = 1) := by
  have h : Context.respond_split ⟨⟨0⟩, none, none⟩ 1 [] (some 1) (some false) false 0
      (fun t => t) = ⟨[], none, ⟨⟨0⟩, none, none⟩, 1⟩ := by
    show splitSendLoop ⟨⟨0⟩, none, none⟩ 1 ([] : Text) 0 1 = ⟨[], none, ⟨⟨0⟩, none, none⟩, 1⟩
    rw [splitSendLoop, dif_neg (by decide)]
  rw [h]
  exact ⟨rfl, rfl, by decide⟩

/-- Claim C5 (amended): for every non-empty post-redaction text of length
at most 4096 and `max_pages ≥ 1`, `respond_split` sends exactly one page
whose content equals that text with no ellipsis characters added, and
returns that page's message handle. -/
theorem respond_split_single_page (ctx : Ctx) (nid : Nat) (text : Text) (mp : Nat)
    (r : Bool) (cfgR : Bool) (cfgL : Nat) (rf : Text → Text)
    (hmp : 1 ≤ mp)
    (hne : (if r then rf text else text) ≠ [])
    (hlen : (if r then rf text else text).length ≤ 4096) :
    (((Context.respond_split ctx nid text (some mp) (some r) cfgR cfgL rf).calls.map
        fun c => c.text) = [if r then rf text else text]) ∧
    ((Context.respond_split ctx nid text (some mp) (some r) cfgR cfgL rf).last =
      some ⟨nid⟩) := by
  have hpage : splitPage (if r then rf text else text) 0 mp =
      ⟨(if r then rf text else text).take MESSAGE_CHAR_LIMIT, 0, false, false⟩ := by
    unfold splitPage
    rw [if_pos hlen, if_pos rfl]
  have htake : (if r then rf text else text).take MESSAGE_CHAR_LIMIT =
      (if r then rf text else text) := List.take_of_length_le hlen
  have hsplit : Context.respond_split ctx nid text (some mp) (some r) cfgR cfgL rf =
      splitSendLoop ctx nid (if r then rf text else text) 0 mp := rfl
  rw [hsplit]
  rw [splitSendLoop, dif_pos ⟨hne, by omega⟩]
  dsimp only
  rw [hpage]
  dsimp only
  rw [htake]
  have hdrop : (if r then rf text else text).drop (MESSAGE_CHAR_LIMIT - 0) = [] :=
    List.drop_eq_nil_of_le (by rw [MESSAGE_CHAR_LIMIT]; omega)
  rw [hdrop]
  rw [splitSendLoop, dif_neg (fun hc => hc.1 rfl)]
  constructor
  · rw [List.map_cons]
    rw [(respond_multi_call_text_redact ctx nid
      (if r then rf text else text) none none false true 0).1]
    rfl
  · show (Option.none.orElse fun _ =>
      some (Context.respond_multi ctx nid (if r then rf text else text)
        none none false true 0).sent) = some ⟨nid⟩
    rw [respond_multi_sent]
    rfl

theorem respond_split_single_page_witness :
    (1 ≤ 1) ∧
    ((if false then (fun t => t) ['h', 'i'] else ['h', 'i']) ≠ ([] : Text)) ∧
    ((if false then (fun t => t) ['h', 'i'] else ['h', 'i']).length ≤ 4096) ∧
    ((((Context.respond_split ⟨⟨9⟩, none, none⟩ 4 ['h', 'i'] (some 1) (some false) false 0
        (fun t => t)).calls.map fun c => c.text) =
      [if false then (fun t => t) ['h', 'i'] else ['h', 'i']]) ∧
    ((Context.respond_split ⟨⟨9⟩, none, none⟩ 4 ['h', 'i'] (some 1) (some false) false 0
        (fun t => t)).last = some ⟨4⟩)) :=
  ⟨by decide, by decide, by decide,
    respond_split_single_page ⟨⟨9⟩, none, none⟩ 4 ['h', 'i'] 1 false false 0 (fun t => t)
      (by decide) (by decide) (by decide)⟩

/-- The incoming chat message as consumed by the constructor: its chat,
its text, and its optional reply target (`msg.chat`,
`msg.reply_to_message`, `msg.text`); chat and reply target are opaque
identifiers here. -/
structure InMessage where
  chat : Nat
  text : Text
  reply_to_message : Option Nat
deriving DecidableEq

/-- The fields of a fully constructed `Context` object (`command.py` lines
95-135).  `argsCache` models presence of the `args` instance attribute: the
constructor does not set it; `_get_args` stores it on first lookup. -/
structure CtxFull where
  bot : Nat
  chat : Nat
  msg : InMessage
  reply_msg : Option Nat
  segments : List Text
  cmd_len : Nat
  invoker : Text
  last_update_time : Option Nat
  response : Option Msg
  response_mode : Option String
  input : Text
  regexMatches : List Nat
deriving DecidableEq

/-- A `Context` object together with its `args` attribute state. -/
structure CtxObj where
  fields : CtxFull
  argsCache : Option (List Text)
deriving DecidableEq

/-- `Context.__init__` (`command.py` lines 113-135): set every field from
the construction inputs, with `invoker = segments[0]` and
`input = msg.text[cmd_len:]`.  Indexing `segments[0]` on an empty sequence
raises `IndexError`; the fallible lookup is embedded with `Option`, `none`
being the constructor failing. -/
def Context.init (bot : Nat) (msg : InMessage) (segments : List Text)
    (cmd_len : Nat) (ms : List Nat) : Option CtxObj :=
  match segments with
  | [] => none
  | s0 :: _ =>
    some { fields :=
            { bot := bot
              chat := msg.chat
              msg := msg
              reply_msg := msg.reply_to_message
              segments := segments
              cmd_len := cmd_len
              invoker := s0
              last_update_time := none
              response := none
              response_mode := none
              input := msg.text.drop cmd_len
              regexMatches := ms }
           argsCache := none }

/-- Reading the `args` attribute (`command.py` lines 137-148): a stored
`self.args` is returned as-is by normal attribute lookup; otherwise
`__getattr__` runs `_get_args`, which computes `self.segments[1:]`, stores
it in `self.args` and returns it.  Returns the value read and the object
state after the read. -/
def Context.getArgs (c : CtxObj) : List Text × CtxObj :=
  match c.argsCache with
  | some a => (a, c)
  | none => (c.fields.segments.drop 1,
      { c with argsCache := some (c.fields.segments.drop 1) })

/-- Claim C9 (counterexample): on an empty segment sequence the constructor
fails (`segments[0]` raises `IndexError`), so the constructor is not total
over every combination of construction inputs. -/
theorem context_init_fails_on_empty_segments :
    Context.init 0 ⟨0, [], none⟩ [] 0 [] = none := rfl

/-- Claim C9 (amended): for every combination of construction inputs whose
segment sequence is non-empty (the caller contract), the constructor
succeeds, deriving `invoker` from the first segment. -/
theorem context_init_total_on_nonempty (bot : Nat) (msg : InMessage) (s0 : Text)
    (rest : List Text) (cmd_len : Nat) (ms : List Nat) :
    ((Context.init bot msg (s0 :: rest) cmd_len ms).isSome = true) ∧
    (((Context.init bot msg (s0 :: rest) cmd_len ms).map fun c => c.fields.invoker) =
      some s0) :=
  ⟨rfl, rfl⟩

/-- Claim C8: on a context whose `args` attribute is not yet set (as the
constructor leaves it), the first `args` access returns `segments[1:]` and
caches it; a further access returns the same stored sequence (hence
identical contents) and leaves the object unchanged, without recomputing. -/
theorem args_computed_once_and_cached (c : CtxObj) (h : c.argsCache = none) :
    ((Context.getArgs c).1 = c.fields.segments.drop 1) ∧
    ((Context.getArgs c).2.argsCache = some (c.fields.segments.drop 1)) ∧
    (Context.getArgs (Context.getArgs c).2 =
      ((Context.getArgs c).1, (Context.getArgs c).2)) := by
  unfold Context.getArgs
  rw [h]
  exact ⟨rfl, rfl, rfl⟩

/-- A sample constructed context used to instantiate the `args` theorem. -/
def sampleCtx : CtxObj :=
  ⟨⟨0, 0, ⟨0, [], none⟩, none, [['x'], ['y']], 0, ['x'], none, none, none, [], []⟩, none⟩

theorem args_computed_once_and_cached_witness :
    (sampleCtx.argsCache = none) ∧
    ((Context.getArgs sampleCtx).1 = sampleCtx.fields.segments.drop 1) ∧
    ((Context.getArgs sampleCtx).2.argsCache = some (sampleCtx.fields.segments.drop 1)) ∧
    (Context.getArgs (Context.getArgs sampleCtx).2 =
      ((Context.getArgs sampleCtx).1, (Context.getArgs sampleCtx).2)) := by
  have h := args_computed_once_and_cached sampleCtx rfl
  exact ⟨rfl, h.1, h.2.1, h.2.2⟩

end Caligo
